import Mathlib

/-!
Verification of the Jotnar schema-enforcement layer (src/index.js).

The development shallowly embeds the JavaScript source: JS values are an
inductive type, JS numbers are modelled as an inductive over rationals
(JS doubles are a subset of the rationals, plus NaN and the infinities),
objects are insertion-ordered association lists, and the stateful database
is explicit state passing.  Fallible operations return `Except`.
-/

namespace Jotnar

/-- Model of a JavaScript number: NaN, an infinity (`pos = true` for
positive infinity), or a finite value.  Finite doubles are a subset of the
rationals, so `fin` carries a rational. -/
inductive JSNum where
  | nan
  | inf (pos : Bool)
  | fin (q : ℚ)
  deriving DecidableEq, Repr

/-- Model of the JavaScript values the layer manipulates: null, undefined,
booleans, numbers, strings, and Date objects (a Date is its time value,
a number). -/
inductive JSVal where
  | null
  | undefined
  | bool (b : Bool)
  | num (n : JSNum)
  | str (s : String)
  | date (t : JSNum)
  deriving DecidableEq, Repr

/-- The JS loose comparison `value == null`, true exactly for null and
undefined (src/index.js lines 5-9 and 129, 158). -/
def isNullish : JSVal → Bool
  | .null => true
  | .undefined => true
  | _ => false

/-- Truncation toward zero of a rational, the rounding JS `parseInt`
performs on the integer part of a decimal numeral. -/
def jsTrunc (q : ℚ) : ℤ := if 0 ≤ q then ⌊q⌋ else -⌊-q⌋

/-- Leading decimal digit of a natural number (the digit `parseInt` reads
from the mantissa of an exponential-notation numeral). -/
def natLeadDigit (n : ℕ) : ℕ :=
  if n < 10 then n else natLeadDigit (n / 10)
termination_by n
decreasing_by exact Nat.div_lt_self (by omega) (by omega)

/-- Leading significant digit of a positive rational below one: multiply by
ten until reaching one, then take the integer part.  `fuel` bounds the
number of steps; callers pass enough fuel for the value at hand. -/
def sigDigitAux : ℕ → ℚ → ℕ
  | 0, _ => 0
  | f + 1, q => if 1 ≤ q then (⌊q⌋).toNat else sigDigitAux f (q * 10)

/-- Magnitude returned by JS `parseInt` when applied to a non-negative
finite number `a` (via the implicit number-to-string conversion).
ECMAScript renders `a < 10^-6` and `a ≥ 10^21` in exponential notation, of
which `parseInt` only reads the leading mantissa digit (it stops at the
`.` or `e`); in the decimal-notation range `parseInt` reads the integer
part. -/
def jsParseIntMag (a : ℚ) : ℤ :=
  if (10 : ℚ) ^ 21 ≤ a then (natLeadDigit (⌊a⌋).toNat : ℤ)
  else if a * 1000000 < 1 then (sigDigitAux (a.den + 1) a : ℤ)
  else jsTrunc a

/-- Signed result of JS `parseInt` on a non-zero finite number `q`: the
numeral of a negative number starts with `-`, which `parseInt` consumes
before the digits. -/
def jsParseIntSigned (q : ℚ) : ℤ :=
  if q < 0 then - jsParseIntMag |q| else jsParseIntMag |q|

/-- JS `parseInt(n)` for a number `n` (the argument is first converted to
a string): `NaN` and the infinities stringify to `NaN`, `Infinity`,
`-Infinity`, none of which starts with a digit `parseInt` accepts beyond
a sign, so all give NaN. -/
def jsParseIntNum : JSNum → JSNum
  | .nan => .nan
  | .inf _ => .nan
  | .fin q =>
    if q = 0 then .fin 0
    else .fin ((jsParseIntSigned q : ℤ) : ℚ)

/-- JS `parseFloat(n)` for a number `n`: the ECMAScript number-to-string
conversion round-trips through `parseFloat` exactly (decimal and
exponential notation are both accepted), `Infinity` parses to Infinity and
`NaN` to NaN. -/
def jsParseFloatNum : JSNum → JSNum
  | .nan => .nan
  | .inf b => .inf b
  | .fin q => .fin q

/-- Whitespace recognised when `Number` trims a string. -/
def isSpaceChar (c : Char) : Bool := c == ' ' || c == '\t' || c == '\n' || c == '\r'

/-- Value of a list of decimal digit characters. -/
def digitsVal (cs : List Char) : ℕ := cs.foldl (fun a c => a * 10 + (c.toNat - 48)) 0

/-- JS `Number(s)` for a string: trim whitespace, empty gives 0, signed
`Infinity` gives an infinity, a decimal numeral (optional integer part,
optional fraction) gives its value, anything else NaN.  Hexadecimal and
exponent forms are not modelled; no claim depends on them. -/
def jsStringToNumber (s : String) : JSNum :=
  let cs := ((s.toList.dropWhile isSpaceChar).reverse.dropWhile isSpaceChar).reverse
  if cs.isEmpty then .fin 0
  else
    let sgn : Bool × List Char :=
      match cs with
      | '-' :: r => (true, r)
      | '+' :: r => (false, r)
      | r => (false, r)
    let neg := sgn.1
    let body := sgn.2
    if body = "Infinity".toList then .inf (!neg)
    else
      let ip := body.takeWhile Char.isDigit
      let r1 := body.dropWhile Char.isDigit
      let core : Option ℚ :=
        match r1 with
        | [] => if ip.isEmpty then none else some ((digitsVal ip : ℕ) : ℚ)
        | '.' :: fr =>
          let fp := fr.takeWhile Char.isDigit
          let r2 := fr.dropWhile Char.isDigit
          if r2.isEmpty && !(ip.isEmpty && fp.isEmpty) then
            some (((digitsVal ip : ℕ) : ℚ) + ((digitsVal fp : ℕ) : ℚ) / (10 : ℚ) ^ fp.length)
          else none
        | _ => none
      match core with
      | none => .nan
      | some q => .fin (if neg then -q else q)

/-- JS `Number(value)` abstract operation on the values of this model. -/
def jsToNumber : JSVal → JSNum
  | .null => .fin 0
  | .undefined => .nan
  | .bool b => .fin (if b then 1 else 0)
  | .num n => n
  | .str s => jsStringToNumber s
  | .date t => t

/-- String rendering of a JS number.  `NaN` and the infinities are exact;
for finite values the decimal/exponential digit rendering is abstracted
(no claim inspects the characters of a stringified number). -/
def jsNumToString : JSNum → String
  | .nan => "NaN"
  | .inf true => "Infinity"
  | .inf false => "-Infinity"
  | .fin q => if q.den = 1 then toString q.num else toString q.num ++ "/" ++ toString q.den

/-- String rendering of a Date.  An invalid date renders as the literal
text; the calendar rendering of a valid date is abstracted (no claim
inspects it). -/
def jsDateToString : JSNum → String
  | .fin q => "Date:" ++ jsNumToString (.fin q)
  | _ => "Invalid Date"

/-- JS `value.toString()` on the values of this model.  On null and
undefined the real method call would throw; every use in the source is
behind the `value == null` guard, so those branches are unreachable and
modelled by arbitrary strings. -/
def jsToStringVal : JSVal → String
  | .null => "null"
  | .undefined => "undefined"
  | .bool b => if b then "true" else "false"
  | .num n => jsNumToString n
  | .str s => s
  | .date t => jsDateToString t

/-- JS `Boolean(value)` (truthiness) on the values of this model. -/
def jsTruthy : JSVal → Bool
  | .null => false
  | .undefined => false
  | .bool b => b
  | .num .nan => false
  | .num (.inf _) => true
  | .num (.fin q) => decide (q ≠ 0)
  | .str s => decide (s ≠ "")
  | .date _ => true

/-- The ECMAScript TimeClip operation: time values beyond ±8.64e15
milliseconds become NaN, others are truncated to an integral value. -/
def timeClip : JSNum → JSNum
  | .fin q => if |q| ≤ 8640000000000000 then .fin ((jsTrunc q : ℤ) : ℚ) else .nan
  | _ => .nan

/-- JS `new Date(value)` reduced to its time value.  Parsing of date
strings is not modelled (the model yields an invalid date); no claim
depends on it.  A Date argument copies the time value; other primitives go
through `Number` and TimeClip. -/
def jsMakeDate : JSVal → JSNum
  | .str _ => .nan
  | .date t => t
  | v => timeClip (jsToNumber v)

namespace TYPES

/-- src/index.js line 4: `ANY: value => value`. -/
def ANY (v : JSVal) : JSVal := v

/-- src/index.js line 5:
`INTEGER: value => value == null ? null : parseInt(Number(value))`. -/
def INTEGER (v : JSVal) : JSVal :=
  if isNullish v then .null else .num (jsParseIntNum (jsToNumber v))

/-- src/index.js line 6:
`FLOAT: value => value == null ? null : parseFloat(Number(value))`. -/
def FLOAT (v : JSVal) : JSVal :=
  if isNullish v then .null else .num (jsParseFloatNum (jsToNumber v))

/-- src/index.js line 7:
`STRING: value => value == null ? null : value.toString()`. -/
def STRING (v : JSVal) : JSVal :=
  if isNullish v then .null else .str (jsToStringVal v)

/-- src/index.js line 8:
`BOOLEAN: value => value == null ? null : Boolean(value)`. -/
def BOOLEAN (v : JSVal) : JSVal :=
  if isNullish v then .null else .bool (jsTruthy v)

/-- src/index.js line 9: `DATE: value => value == null ? null :
(value instanceof Date ? value : new Date(value))`. -/
def DATE (v : JSVal) : JSVal :=
  if isNullish v then .null
  else match v with
    | .date t => .date t
    | w => .date (jsMakeDate w)

end TYPES

theorem natLeadDigit_lt_ten (n : ℕ) : natLeadDigit n < 10 := by
  unfold natLeadDigit
  split
  · omega
  · exact natLeadDigit_lt_ten (n / 10)
termination_by n
decreasing_by exact Nat.div_lt_self (by omega) (by omega)

theorem sigDigitAux_lt_ten (f : ℕ) : ∀ q : ℚ, q < 10 → sigDigitAux f q < 10 := by
  induction f with
  | zero => intro q _; simp [sigDigitAux]
  | succ f ih =>
    intro q hq
    unfold sigDigitAux
    split
    · next h1 =>
      have h2 : ⌊q⌋ < 10 := Int.floor_lt.mpr (by exact_mod_cast hq)
      have h3 : 0 ≤ ⌊q⌋ := Int.floor_nonneg.mpr (le_trans zero_le_one h1)
      omega
    · next h1 =>
      have : q < 1 := lt_of_not_le h1
      exact ih (q * 10) (by linarith)

theorem jsParseIntMag_bound (a : ℚ) (ha : 0 ≤ a) :
    0 ≤ jsParseIntMag a ∧ (jsParseIntMag a : ℚ) < 10 ^ 21 := by
  unfold jsParseIntMag
  split
  · refine ⟨Int.ofNat_nonneg _, ?_⟩
    have h := natLeadDigit_lt_ten (⌊a⌋).toNat
    have : ((natLeadDigit (⌊a⌋).toNat : ℤ) : ℚ) < 10 := by exact_mod_cast h
    nlinarith [pow_pos (show (0:ℚ) < 10 by norm_num) 21,
      show (10:ℚ) ≤ 10 ^ 21 by norm_num]
  · next hbig =>
    split
    · next hsmall =>
      refine ⟨Int.ofNat_nonneg _, ?_⟩
      have h10 : a < 10 := by nlinarith
      have h := sigDigitAux_lt_ten (a.den + 1) a h10
      have : ((sigDigitAux (a.den + 1) a : ℤ) : ℚ) < 10 := by exact_mod_cast h
      linarith [show (10:ℚ) ≤ 10 ^ 21 by norm_num]
    · have htr : jsTrunc a = ⌊a⌋ := by unfold jsTrunc; rw [if_pos ha]
      rw [htr]
      refine ⟨Int.floor_nonneg.mpr ha, ?_⟩
      have h1 : (⌊a⌋ : ℚ) ≤ a := Int.floor_le a
      have h2 : a < 10 ^ 21 := lt_of_not_le (by assumption)
      linarith

theorem jsParseIntSigned_bound (q : ℚ) : |jsParseIntSigned q| < 10 ^ 21 := by
  have h := jsParseIntMag_bound |q| (abs_nonneg q)
  have hlt : jsParseIntMag |q| < 10 ^ 21 := by
    have : ((10:ℚ) ^ 21) = (((10 ^ 21 : ℤ)) : ℚ) := by push_cast; ring
    rw [this] at h
    exact_mod_cast h.2
  unfold jsParseIntSigned
  split
  · rw [abs_neg, abs_of_nonneg h.1]; exact hlt
  · rw [abs_of_nonneg h.1]; exact hlt

theorem jsParseIntNum_intCast (z : ℤ) (hz : |z| < 10 ^ 21) :
    jsParseIntNum (.fin (z : ℚ)) = .fin (z : ℚ) := by
  simp only [jsParseIntNum]
  by_cases h0 : (z : ℚ) = 0
  · rw [if_pos h0, h0]
  · rw [if_neg h0]
    have hz0 : z ≠ 0 := fun h => h0 (by rw [h]; norm_num)
    have ha : |(z : ℚ)| = ((|z| : ℤ) : ℚ) := by push_cast; rfl
    have h1 : (1 : ℚ) ≤ |(z : ℚ)| := by
      rw [ha]; exact_mod_cast Int.one_le_abs hz0
    have hmag : jsParseIntMag |(z : ℚ)| = |z| := by
      unfold jsParseIntMag
      rw [if_neg, if_neg]
      · unfold jsTrunc
        rw [if_pos (abs_nonneg _), ha, Int.floor_intCast]
      · intro hc; linarith
      · intro hc
        rw [ha] at hc
        have : (10:ℚ) ^ 21 = (((10:ℤ) ^ 21 : ℤ) : ℚ) := by push_cast; ring
        rw [this] at hc
        have := Int.cast_le.mp hc
        omega
    unfold jsParseIntSigned
    rw [hmag]
    by_cases hneg : (z : ℚ) < 0
    · rw [if_pos hneg]
      have hzneg : z < 0 := by exact_mod_cast hneg
      rw [abs_of_neg hzneg]; push_cast; ring_nf
    · rw [if_neg hneg]
      have hznn : 0 ≤ z := by
        have : (0:ℚ) ≤ (z : ℚ) := le_of_not_lt hneg
        exact_mod_cast this
      rw [abs_of_nonneg hznn]

theorem jsParseIntNum_idem (n : JSNum) :
    jsParseIntNum (jsParseIntNum n) = jsParseIntNum n := by
  cases n with
  | nan => rfl
  | inf b => rfl
  | fin q =>
    by_cases h0 : q = 0
    · simp [jsParseIntNum, h0]
    · show jsParseIntNum (jsParseIntNum (.fin q)) = jsParseIntNum (.fin q)
      rw [show jsParseIntNum (.fin q) = .fin ((jsParseIntSigned q : ℤ) : ℚ) by
        simp only [jsParseIntNum]; rw [if_neg h0]]
      exact jsParseIntNum_intCast _ (jsParseIntSigned_bound q)

theorem jsParseFloatNum_idem (n : JSNum) :
    jsParseFloatNum (jsParseFloatNum n) = jsParseFloatNum n := by
  cases n <;> rfl

/-- C3: for every built-in coercion except DATE (ANY, INTEGER, FLOAT,
STRING, BOOLEAN) and every input value, applying the coercion twice gives
the same result as applying it once. -/
theorem C3_coercions_idempotent (v : JSVal) :
    TYPES.ANY (TYPES.ANY v) = TYPES.ANY v ∧
    TYPES.INTEGER (TYPES.INTEGER v) = TYPES.INTEGER v ∧
    TYPES.FLOAT (TYPES.FLOAT v) = TYPES.FLOAT v ∧
    TYPES.STRING (TYPES.STRING v) = TYPES.STRING v ∧
    TYPES.BOOLEAN (TYPES.BOOLEAN v) = TYPES.BOOLEAN v := by
  refine ⟨rfl, ?_, ?_, ?_, ?_⟩
  · cases v <;> simp [TYPES.INTEGER, isNullish, jsToNumber, jsParseIntNum_idem]
  · cases v <;> simp [TYPES.FLOAT, isNullish, jsToNumber, jsParseFloatNum_idem]
  · cases v <;> simp [TYPES.STRING, isNullish, jsToStringVal]
  · cases v <;> simp [TYPES.BOOLEAN, isNullish, jsTruthy]

/-- C4 counterexample: the built-in coercion ANY is the identity, so on
undefined it returns undefined, not null, refuting the claim that every
built-in coercion returns null when its argument is undefined. -/
theorem C4_counterexample :
    TYPES.ANY JSVal.undefined = JSVal.undefined ∧ JSVal.undefined ≠ JSVal.null := by
  exact ⟨rfl, by decide⟩

/-- C4 amended: every built-in coercion is a total Lean function over the
modelled values (null, primitives, Date-like) and returns null for a null
argument; INTEGER, FLOAT, STRING, BOOLEAN and DATE also return null for
undefined, while ANY (the identity) returns undefined unchanged. -/
theorem C4_amended_null_handling :
    TYPES.ANY JSVal.null = JSVal.null ∧
    TYPES.ANY JSVal.undefined = JSVal.undefined ∧
    TYPES.INTEGER JSVal.null = JSVal.null ∧
    TYPES.INTEGER JSVal.undefined = JSVal.null ∧
    TYPES.FLOAT JSVal.null = JSVal.null ∧
    TYPES.FLOAT JSVal.undefined = JSVal.null ∧
    TYPES.STRING JSVal.null = JSVal.null ∧
    TYPES.STRING JSVal.undefined = JSVal.null ∧
    TYPES.BOOLEAN JSVal.null = JSVal.null ∧
    TYPES.BOOLEAN JSVal.undefined = JSVal.null ∧
    TYPES.DATE JSVal.null = JSVal.null ∧
    TYPES.DATE JSVal.undefined = JSVal.null := by
  refine ⟨rfl, rfl, rfl, rfl, rfl, rfl, rfl, rfl, rfl, rfl, rfl, rfl⟩

/-! ## Objects, models and the database

JS objects are insertion-ordered maps with unique keys; they are modelled
as association lists.  Property assignment on an existing key keeps its
position, assignment of a fresh key appends. -/

/-- A JS object: insertion-ordered association list from property name to
value. -/
abbrev Obj := List (String × JSVal)

/-- Lookup of a property (`o[k]`); `none` models an absent property
(which reads as undefined). -/
def alLookup {α : Type} : List (String × α) → String → Option α
  | [], _ => none
  | (k, v) :: rest, key => if k = key then some v else alLookup rest key

/-- Property assignment (`o[k] = v`): replace in place, or append. -/
def alSet {α : Type} : List (String × α) → String → α → List (String × α)
  | [], key, v => [(key, v)]
  | (k, w) :: rest, key, v =>
    if k = key then (k, v) :: rest else (k, w) :: alSet rest key v

/-- Reading a property as JS does: an absent property is undefined. -/
def objGetD (o : Obj) (k : String) : JSVal := (alLookup o k).getD .undefined

/-- The error taxonomy of the layer, carrying the data the thrown message
interpolates (src/index.js lines 71, 81-82, 130, 159). -/
inductive JErr where
  | redefinition (name : String)
  | reserved (fld : String)
  | notNull (prop : String) (coll : String)
  deriving DecidableEq, Repr

/-- One compiled property rule, src/index.js lines 87-90 and 93-96:
`{ parse, notNull }`. -/
structure SchemeRule where
  parse : JSVal → JSVal
  notNull : Bool

/-- One registry entry, src/index.js lines 73-79: `_collection` is
modelled by the bound collection's name (`none` for the initial null). -/
structure ModelEntry where
  collection : Option String
  unique : List String
  scheme : List (String × SchemeRule)
  defaultObject : Obj
  nonStrict : Bool

/-- The database: the model registry (`this.models`) and the underlying
store's collections, each a list of stored documents.  The store itself is
external; only the containers the layer touches are modelled. -/
structure DB where
  models : List (String × ModelEntry)
  collections : List (String × List Obj)

/-- A raw property declaration: either a bare coercion function, or a
spec object with optional `type`, `allowNull`, `defaultValue` and a
`unique` flag (src/index.js lines 84-99 distinguishes the two by
`typeof`). -/
inductive PropDecl where
  | func (parse : JSVal → JSVal)
  | config (type : Option (JSVal → JSVal)) (allowNull : Option Bool)
      (defaultValue : Option JSVal) (unique : Bool)

/-- The `options` argument of define: absent/falsy, the boolean shorthand,
or a configuration object (only the recognised `allowExtraProperties`
field matters to this layer). -/
inductive RawOptions where
  | missing
  | flag (b : Bool)
  | config (allowExtraProperties : Bool)

/-- Normalisation of options, src/index.js lines 67-68: falsy options
become `{}` (whose `allowExtraProperties` reads as undefined, hence
false), `true` becomes `{ allowExtraProperties: true }`. -/
def optAllowExtra : RawOptions → Bool
  | .missing => false
  | .flag b => b
  | .config a => a

/-- Compilation of `_scheme`, src/index.js lines 84-96: a spec object
yields `{ parse: type || ANY, notNull: allowNull === false }`, a bare
function yields `{ parse: f, notNull: false }`. -/
def compileScheme : List (String × PropDecl) → List (String × SchemeRule)
  | [] => []
  | (k, .func f) :: rest => (k, ⟨f, false⟩) :: compileScheme rest
  | (k, .config t an _ _) :: rest =>
    (k, ⟨t.getD TYPES.ANY, match an with | some false => true | _ => false⟩) ::
      compileScheme rest

/-- Compilation of `_defaultObject`, src/index.js lines 91 and 97: a bare
function yields null; a spec object yields its `defaultValue`, with both
an absent and an explicitly undefined `defaultValue` replaced by null
(`typeof ... === 'undefined'`). -/
def compileDefaults : List (String × PropDecl) → Obj
  | [] => []
  | (k, .func _) :: rest => (k, JSVal.null) :: compileDefaults rest
  | (k, .config _ _ dv _) :: rest =>
    (k, match dv with | none => JSVal.null | some .undefined => JSVal.null | some v => v) ::
      compileDefaults rest

/-- Compilation of `_unique`, src/index.js line 86: property names of spec
objects with a truthy `unique` flag, in declaration order. -/
def compileUnique : List (String × PropDecl) → List String
  | [] => []
  | (k, .config _ _ _ true) :: rest => k :: compileUnique rest
  | _ :: rest => compileUnique rest

/-- The blank entry assigned at src/index.js lines 73-79, before the
reserved-field checks run. -/
def blankEntry (allowExtra : Bool) : ModelEntry :=
  { collection := none, unique := [], scheme := [], defaultObject := [],
    nonStrict := allowExtra }

/-- The fully compiled entry a successful define leaves in the registry. -/
def compiledEntry (name : String) (defn : List (String × PropDecl)) (allowExtra : Bool) :
    ModelEntry :=
  { collection := some name, unique := compileUnique defn,
    scheme := compileScheme defn, defaultObject := compileDefaults defn,
    nonStrict := allowExtra }

/-- src/index.js lines 64-105, `define(name, definition, options)` up to
collection binding.  The mutation already performed when an error is
thrown is kept in the returned state, as in JS.  The reserved-field checks
test `definition.meta` / `definition.$loki` for truthiness; a declared
property (function or object) is always truthy, so presence of the key is
the faithful test.  On success the collection is fetched or created
(`getCollection` / `addCollection`) and its name — the handle — returned;
the `uniqueNames` assignment is store-internal state and not modelled.
Binding of the intercepted insert/update is modelled by the functions
`modelInsert` and `modelUpdate` below, which take the registry entry
explicitly. -/
def define (db : DB) (name : String) (defn : List (String × PropDecl))
    (opts : RawOptions) : DB × Except JErr String :=
  let allowExtra := optAllowExtra opts
  if (alLookup db.models name).isSome then
    (db, .error (.redefinition name))
  else
    let db1 : DB := { db with models := alSet db.models name (blankEntry allowExtra) }
    if (alLookup defn "meta").isSome then (db1, .error (.reserved "meta"))
    else if (alLookup defn "$loki").isSome then (db1, .error (.reserved "$loki"))
    else
      let colls := if (alLookup db.collections name).isSome then db.collections
                   else alSet db.collections name []
      ({ models := alSet db1.models name (compiledEntry name defn allowExtra),
         collections := colls }, .ok name)

/-- src/index.js lines 177-179, `getModel(name)`: the entry's collection
handle, or null when the name is unregistered.  JS returns null both for a
missing entry and for an entry whose `_collection` is null; both map to
`none`. -/
def getModel (db : DB) (name : String) : Option String :=
  match alLookup db.models name with
  | some e => e.collection
  | none => none

/-! ## Document normalization and the write interceptor -/

/-- The notNull flag consulted by the not-null loops (src/index.js
lines 129 and 158): `_scheme[prop].notNull`.  For entries built by define
the scheme always has the key (see C9); a missing key would be a JS
TypeError and is modelled as false, unreachable on compiled entries. -/
def schemeNotNull (m : ModelEntry) (prop : String) : Bool :=
  match alLookup m.scheme prop with
  | some r => r.notNull
  | none => false

/-- One iteration of the property loop shared by insert (lines 120-126)
and update (lines 149-155), which are textually identical in the source:
a declared property is coerced, an undeclared one is copied raw when the
model is non-strict and dropped otherwise. -/
def normStep (m : ModelEntry) (acc : Obj) (kv : String × JSVal) : Obj :=
  match alLookup m.scheme kv.1 with
  | some r => alSet acc kv.1 (r.parse kv.2)
  | none => if m.nonStrict then alSet acc kv.1 kv.2 else acc

/-- The full property loop: fold `normStep` over the raw document's
properties in order, starting from `init` (the copied default template for
insert, the empty object for update). -/
def normProps (m : ModelEntry) (init : Obj) (obj : Obj) : Obj :=
  obj.foldl (normStep m) init

/-- JSON round-trip of a single value, as performed by
`JSON.parse(JSON.stringify(...))` on the default template (src/index.js
line 119): undefined disappears (the key is dropped), NaN and the
infinities serialize to null, a valid Date serializes to its string (the
exact ISO rendering is abstracted; no claim inspects it), an invalid Date
to null. -/
def jsonVal : JSVal → Option JSVal
  | .undefined => none
  | .num .nan => some .null
  | .num (.inf _) => some .null
  | .date (.fin q) => some (.str (jsNumToString (.fin q)))
  | .date _ => some .null
  | v => some v

/-- JSON round-trip of an object (the deep copy of the default template at
src/index.js line 119): each value is round-tripped, keys whose value
serializes to nothing (undefined) are dropped. -/
def jsonRoundTripObj : Obj → Obj
  | [] => []
  | (k, v) :: rest =>
    match jsonVal v with
    | none => jsonRoundTripObj rest
    | some w => (k, w) :: jsonRoundTripObj rest

/-- The not-null loop body over the declared properties (src/index.js
lines 127-132 and 156-161, textually identical): iterate `_defaultObject`
keys; fail on the first property that reads nullish while its rule
demands notNull. -/
def checkNotNullFrom (name : String) (m : ModelEntry) (doc : Obj) :
    List (String × JSVal) → Except JErr Unit
  | [] => .ok ()
  | (prop, _) :: rest =>
    if isNullish (objGetD doc prop) && schemeNotNull m prop then
      .error (.notNull prop name)
    else checkNotNullFrom name m doc rest

/-- The complete not-null check of a normalized document. -/
def checkNotNull (name : String) (m : ModelEntry) (doc : Obj) : Except JErr Unit :=
  checkNotNullFrom name m doc m.defaultObject

/-- Normalization of one document on the insert path (src/index.js
lines 118-132): deep-copy the default template, run the property loop,
then the not-null check. -/
def normalizeInsertDoc (name : String) (m : ModelEntry) (obj : Obj) : Except JErr Obj :=
  match checkNotNull name m (normProps m (jsonRoundTripObj m.defaultObject) obj) with
  | .error e => .error e
  | .ok _ => .ok (normProps m (jsonRoundTripObj m.defaultObject) obj)

/-- Normalization of one document on the single-document update path
(src/index.js lines 148-161): same loops, but starting from the empty
object `{}` — no defaults are applied. -/
def normalizeUpdateDoc (name : String) (m : ModelEntry) (obj : Obj) : Except JErr Obj :=
  match checkNotNull name m (normProps m [] obj) with
  | .error e => .error e
  | .ok _ => .ok (normProps m [] obj)

/-- The argument shape accepted by the intercepted writes: one document or
an array of documents. -/
inductive WriteArg where
  | one (o : Obj)
  | many (l : List Obj)

/-- src/index.js line 116: `Array.isArray(object) ? object : [object]`. -/
def toBatch : WriteArg → List Obj
  | .one o => [o]
  | .many l => l

/-- The insert loop building `listToInsert` (src/index.js lines 117-134):
normalize each document in order, failing the whole call at the first
offender, before anything reaches the store. -/
def normalizeBatch (name : String) (m : ModelEntry) : List Obj → Except JErr (List Obj)
  | [] => .ok []
  | o :: rest =>
    match normalizeInsertDoc name m o with
    | .error e => .error e
    | .ok d =>
      match normalizeBatch name m rest with
      | .error e => .error e
      | .ok ds => .ok (d :: ds)

/-- The intercepted insert (src/index.js lines 115-136) on one model's
collection: on success the fully normalized batch is handed to the
store's original `_insert`, modelled as appending to the collection's
documents and returning the batch; on failure the store primitive is
never called and the collection is left as it was. -/
def modelInsert (name : String) (m : ModelEntry) (coll : List Obj) (arg : WriteArg) :
    List Obj × Except JErr (List Obj) :=
  match normalizeBatch name m (toBatch arg) with
  | .error e => (coll, .error e)
  | .ok lst => (coll ++ lst, .ok lst)

/-- Re-attachment of the two store-owned fields after update
normalization (src/index.js lines 162-163): `toUpdate.meta = object.meta;
toUpdate.$loki = object.$loki` — reading an absent field yields
undefined, which the assignment stores. -/
def attachReserved (d : Obj) (orig : Obj) : Obj :=
  alSet (alSet d "meta" (objGetD orig "meta")) "$loki" (objGetD orig "$loki")

/-- The intercepted update (src/index.js lines 143-166), modelled as the
argument ultimately forwarded to the store's original `_update`: an array
is forwarded untouched (line 144-146); a single document is normalized
(no defaults), not-null checked, given back its original `meta` and
`$loki`, and forwarded. -/
def modelUpdate (name : String) (m : ModelEntry) (arg : WriteArg) :
    Except JErr WriteArg :=
  match arg with
  | .many l => .ok (.many l)
  | .one obj =>
    match normalizeUpdateDoc name m obj with
    | .error e => .error e
    | .ok d => .ok (.one (attachReserved d obj))

/-! ## Helper lemmas -/

theorem alLookup_alSet_self {α : Type} (l : List (String × α)) (k : String) (v : α) :
    alLookup (alSet l k v) k = some v := by
  induction l with
  | nil => simp [alSet, alLookup]
  | cons hd tl ih =>
    obtain ⟨k0, w⟩ := hd
    by_cases h : k0 = k
    · simp [alSet, alLookup, h]
    · simp [alSet, alLookup, h, ih]

theorem alLookup_alSet_ne {α : Type} (l : List (String × α)) (k k' : String) (v : α)
    (h : k' ≠ k) : alLookup (alSet l k v) k' = alLookup l k' := by
  have h' : k ≠ k' := Ne.symm h
  induction l with
  | nil => simp [alSet, alLookup, h']
  | cons hd tl ih =>
    obtain ⟨k0, w⟩ := hd
    by_cases h0 : k0 = k
    · subst h0
      simp [alSet, alLookup, Ne.symm h]
    · simp [alSet, alLookup, h0, ih]

theorem alLookup_none_iff {α : Type} (l : List (String × α)) (k : String) :
    alLookup l k = none ↔ k ∉ l.map Prod.fst := by
  induction l with
  | nil => simp [alLookup]
  | cons hd tl ih =>
    obtain ⟨k0, w⟩ := hd
    by_cases h : k0 = k
    · simp [alLookup, h]
    · rw [show alLookup ((k0, w) :: tl) k = alLookup tl k by simp [alLookup, h]]
      rw [ih]
      simp [Ne.symm h]

theorem alLookup_isSome_of_mem {α : Type} (l : List (String × α)) (k : String)
    (h : k ∈ l.map Prod.fst) : (alLookup l k).isSome = true := by
  cases hl : alLookup l k with
  | none => exact absurd h ((alLookup_none_iff l k).mp hl)
  | some v => rfl

/-- Fallback composition of optional values. -/
def optOr {α : Type} (a b : Option α) : Option α :=
  match a with
  | some x => some x
  | none => b

/-- The value the property loop writes for key `k`, if any: the last
occurrence of `k` in the raw document that the loop does not drop
(coerced when declared, raw when non-strict). -/
def writeVal (m : ModelEntry) : Obj → String → Option JSVal
  | [], _ => none
  | (k0, v0) :: rest, k =>
    match writeVal m rest k with
    | some w => some w
    | none =>
      if k0 = k then
        match alLookup m.scheme k0 with
        | some r => some (r.parse v0)
        | none => if m.nonStrict then some v0 else none
      else none

theorem normProps_cons (m : ModelEntry) (init : Obj) (hd : String × JSVal)
    (tl : Obj) : normProps m init (hd :: tl) = normProps m (normStep m init hd) tl := rfl

theorem normProps_get (m : ModelEntry) (obj : Obj) : ∀ (init : Obj) (k : String),
    alLookup (normProps m init obj) k = optOr (writeVal m obj k) (alLookup init k) := by
  induction obj with
  | nil => intro init k; simp [normProps, writeVal, optOr]
  | cons hd tl ih =>
    intro init k
    obtain ⟨k0, v0⟩ := hd
    rw [normProps_cons, ih]
    cases hw : writeVal m tl k with
    | some w => simp [writeVal, hw, optOr]
    | none =>
      simp only [writeVal, hw, optOr]
      by_cases hk : k0 = k
      · subst hk
        cases hs : alLookup m.scheme k0 with
        | some r => simp [normStep, hs, alLookup_alSet_self]
        | none =>
          by_cases hns : m.nonStrict
          · simp [normStep, hs, hns, alLookup_alSet_self]
          · simp [normStep, hs, hns]
      · cases hs : alLookup m.scheme k0 with
        | some r => simp [normStep, hs, hk, alLookup_alSet_ne _ _ _ _ (fun hc => hk hc.symm)]
        | none =>
          by_cases hns : m.nonStrict
          · simp [normStep, hs, hns, hk, alLookup_alSet_ne _ _ _ _ (fun hc => hk hc.symm)]
          · simp [normStep, hs, hns, hk]

theorem writeVal_none_of_not_mem (m : ModelEntry) (obj : Obj) (k : String)
    (h : k ∉ obj.map Prod.fst) : writeVal m obj k = none := by
  induction obj with
  | nil => rfl
  | cons hd tl ih =>
    obtain ⟨k0, v0⟩ := hd
    simp only [List.map_cons, List.mem_cons] at h
    push_neg at h
    simp only [writeVal, ih h.2]
    rw [if_neg (Ne.symm h.1)]

theorem writeVal_none_strict (m : ModelEntry) (obj : Obj) (k : String)
    (hns : m.nonStrict = false) (hs : alLookup m.scheme k = none) :
    writeVal m obj k = none := by
  induction obj with
  | nil => rfl
  | cons hd tl ih =>
    obtain ⟨k0, v0⟩ := hd
    simp only [writeVal, ih]
    by_cases hk : k0 = k
    · subst hk; simp [hs, hns]
    · simp [hk]

theorem writeVal_some_of_scheme (m : ModelEntry) (obj : Obj) (k : String)
    (hs : (alLookup m.scheme k).isSome = true) (hmem : k ∈ obj.map Prod.fst) :
    (writeVal m obj k).isSome = true := by
  induction obj with
  | nil => simp at hmem
  | cons hd tl ih =>
    obtain ⟨k0, v0⟩ := hd
    cases hw : writeVal m tl k with
    | some w => simp [writeVal, hw]
    | none =>
      simp only [List.map_cons, List.mem_cons] at hmem
      rcases hmem with hk | hmem
      · subst hk
        obtain ⟨r, hr⟩ := Option.isSome_iff_exists.mp hs
        simp [writeVal, hw, hr]
      · have := ih hmem
        simp [hw] at this

theorem writeVal_nonstrict_unique (m : ModelEntry) (obj : Obj) (k : String) (v : JSVal)
    (hns : m.nonStrict = true) (hs : alLookup m.scheme k = none)
    (hnd : (obj.map Prod.fst).Nodup) (hmem : (k, v) ∈ obj) :
    writeVal m obj k = some v := by
  induction obj with
  | nil => simp at hmem
  | cons hd tl ih =>
    obtain ⟨k0, v0⟩ := hd
    simp only [List.map_cons, List.nodup_cons] at hnd
    rcases List.mem_cons.mp hmem with heq | hmem'
    · rw [Prod.mk.injEq] at heq
      obtain ⟨hk, hv⟩ := heq
      subst hk
      subst hv
      have hnone : writeVal m tl k = none :=
        writeVal_none_of_not_mem m tl k hnd.1
      simp [writeVal, hnone, hs, hns]
    · have hrec := ih hnd.2 hmem'
      simp [writeVal, hrec]

theorem compileScheme_keys (defn : List (String × PropDecl)) :
    (compileScheme defn).map Prod.fst = defn.map Prod.fst := by
  induction defn with
  | nil => rfl
  | cons hd tl ih =>
    obtain ⟨k, d⟩ := hd
    cases d <;> simp [compileScheme, ih]

theorem compileDefaults_keys (defn : List (String × PropDecl)) :
    (compileDefaults defn).map Prod.fst = defn.map Prod.fst := by
  induction defn with
  | nil => rfl
  | cons hd tl ih =>
    obtain ⟨k, d⟩ := hd
    cases d <;> simp [compileDefaults, ih]

theorem jsonRoundTripObj_lookup_none (o : Obj) (k : String)
    (h : k ∉ o.map Prod.fst) : alLookup (jsonRoundTripObj o) k = none := by
  induction o with
  | nil => rfl
  | cons hd tl ih =>
    obtain ⟨k0, v0⟩ := hd
    simp only [List.map_cons, List.mem_cons] at h
    push_neg at h
    cases hj : jsonVal v0 with
    | none => simp only [jsonRoundTripObj, hj]; exact ih h.2
    | some w =>
      simp only [jsonRoundTripObj, hj, alLookup]
      rw [if_neg (Ne.symm h.1)]
      exact ih h.2

/-- The not-null loop reads only property values of the document; two
documents that read equal everywhere pass or fail identically. -/
theorem checkNotNullFrom_ext (name : String) (m : ModelEntry) (a b : Obj)
    (h : ∀ p, objGetD a p = objGetD b p) :
    ∀ l, checkNotNullFrom name m a l = checkNotNullFrom name m b l := by
  intro l
  induction l with
  | nil => rfl
  | cons hd tl ih =>
    obtain ⟨prop, w⟩ := hd
    simp only [checkNotNullFrom, h prop, ih]

/-! ## Theorems about define and the registry -/

theorem define_redef_eq (db : DB) (name : String) (defn : List (String × PropDecl))
    (opts : RawOptions) (h : (alLookup db.models name).isSome = true) :
    define db name defn opts = (db, .error (.redefinition name)) := by
  simp [define, h]

theorem define_reserved_eq (db : DB) (name : String) (defn : List (String × PropDecl))
    (opts : RawOptions) (hfresh : alLookup db.models name = none)
    (hres : (alLookup defn "meta").isSome = true ∨ (alLookup defn "$loki").isSome = true) :
    ∃ fld, define db name defn opts =
      ({ db with models := alSet db.models name (blankEntry (optAllowExtra opts)) },
        .error (.reserved fld)) := by
  cases hmeta : (alLookup defn "meta").isSome with
  | true =>
    refine ⟨"meta", ?_⟩
    simp [define, hfresh, hmeta]
  | false =>
    have hl : (alLookup defn "$loki").isSome = true := by
      rcases hres with h | h
      · rw [hmeta] at h; cases h
      · exact h
    refine ⟨"$loki", ?_⟩
    simp [define, hfresh, hmeta, hl]

/-- C5: on a database whose registry already holds the model name, define
fails with the redefinition error and returns the database completely
unchanged — in particular the first model's compiled rules, default
template, unique set, strictness flag, bound collection handle, and the
stored documents of every collection are untouched. -/
theorem C5_redefinition_rejected (db : DB) (name : String)
    (defn : List (String × PropDecl)) (opts : RawOptions)
    (h : (alLookup db.models name).isSome = true) :
    define db name defn opts = (db, .error (.redefinition name)) :=
  define_redef_eq db name defn opts h

/-- A concrete model declaration used by several witnesses:
`age: { type: INTEGER, allowNull: false }`. -/
def defnW : List (String × PropDecl) :=
  [("age", PropDecl.config (some TYPES.INTEGER) (some false) none false)]

/-- The database obtained by defining model `people` on an empty
database. -/
def dbW : DB := (define ⟨[], []⟩ "people" defnW .missing).1

theorem C5_redefinition_rejected_witness :
    (alLookup dbW.models "people").isSome = true ∧
    define dbW "people" defnW .missing = (dbW, .error (.redefinition "people")) :=
  ⟨rfl, C5_redefinition_rejected dbW "people" defnW .missing rfl⟩

/-- C6: on a fresh model name, a declaration containing a property named
`meta` or `$loki` makes define fail with the reserved-field error; the
failure happens before any collection is created or fetched — the
returned state differs from the input only by the blank registry entry
(whose collection handle is still null), and `collections` is untouched. -/
theorem C6_reserved_field_rejected (db : DB) (name : String)
    (defn : List (String × PropDecl)) (opts : RawOptions)
    (hfresh : alLookup db.models name = none)
    (hres : (alLookup defn "meta").isSome = true ∨ (alLookup defn "$loki").isSome = true) :
    ∃ fld, define db name defn opts =
      ({ db with models := alSet db.models name (blankEntry (optAllowExtra opts)) },
        .error (.reserved fld)) :=
  define_reserved_eq db name defn opts hfresh hres

/-- A declaration containing the reserved property `meta`. -/
def defnMetaW : List (String × PropDecl) :=
  [("meta", PropDecl.func TYPES.ANY), ("age", PropDecl.func TYPES.INTEGER)]

theorem C6_reserved_field_rejected_witness :
    ∃ fld, define ⟨[], []⟩ "m" defnMetaW .missing =
      ({ models := alSet [] "m" (blankEntry false), collections := [] },
        .error (.reserved fld)) :=
  C6_reserved_field_rejected ⟨[], []⟩ "m" defnMetaW .missing rfl (Or.inl rfl)

/-- C10: when define fails the reserved-field check, the blank registry
entry created just before the check survives with a null collection
handle: the name is occupied (a second define fails with the
redefinition error, whatever its arguments), yet getModel returns null. -/
theorem C10_reserved_failure_poisons_registry (db : DB) (name : String)
    (defn : List (String × PropDecl)) (opts : RawOptions)
    (defn2 : List (String × PropDecl)) (opts2 : RawOptions)
    (hfresh : alLookup db.models name = none)
    (hres : (alLookup defn "meta").isSome = true ∨ (alLookup defn "$loki").isSome = true) :
    alLookup ((define db name defn opts).1).models name
        = some (blankEntry (optAllowExtra opts)) ∧
    (blankEntry (optAllowExtra opts)).collection = none ∧
    define ((define db name defn opts).1) name defn2 opts2
        = ((define db name defn opts).1, .error (.redefinition name)) ∧
    getModel ((define db name defn opts).1) name = none := by
  obtain ⟨fld, heq⟩ := define_reserved_eq db name defn opts hfresh hres
  rw [heq]
  dsimp only
  have hself := alLookup_alSet_self db.models name (blankEntry (optAllowExtra opts))
  refine ⟨hself, rfl, ?_, ?_⟩
  · apply define_redef_eq
    rw [hself]
    rfl
  · unfold getModel
    rw [hself]
    rfl

theorem C10_reserved_failure_poisons_registry_witness :
    alLookup ((define ⟨[], []⟩ "m" defnMetaW .missing).1).models "m"
        = some (blankEntry false) ∧
    (blankEntry false).collection = none ∧
    define ((define ⟨[], []⟩ "m" defnMetaW .missing).1) "m" defnW .missing
        = ((define ⟨[], []⟩ "m" defnMetaW .missing).1, .error (.redefinition "m")) ∧
    getModel ((define ⟨[], []⟩ "m" defnMetaW .missing).1) "m" = none :=
  C10_reserved_failure_poisons_registry ⟨[], []⟩ "m" defnMetaW .missing defnW .missing
    rfl (Or.inl rfl)

/-- C9: the compiled rules mapping and the default-value template always
carry exactly the declared property names (even as ordered lists), so
every key the not-null loops iterate has a rule, and reading its
`notNull` field never fails. -/
theorem C9_scheme_defaults_keys_agree (defn : List (String × PropDecl)) :
    (compileScheme defn).map Prod.fst = defn.map Prod.fst ∧
    (compileDefaults defn).map Prod.fst = defn.map Prod.fst ∧
    ∀ k, k ∈ (compileDefaults defn).map Prod.fst →
      (alLookup (compileScheme defn) k).isSome = true := by
  refine ⟨compileScheme_keys defn, compileDefaults_keys defn, ?_⟩
  intro k hk
  apply alLookup_isSome_of_mem
  rw [compileScheme_keys]
  rw [compileDefaults_keys] at hk
  exact hk

theorem C9_scheme_defaults_keys_agree_witness :
    (alLookup (compileScheme defnW) "age").isSome = true :=
  (C9_scheme_defaults_keys_agree defnW).2.2 "age" (by decide)

/-! ## Theorems about the write interceptor -/

theorem normalizeBatch_error_of_mem (name : String) (m : ModelEntry) (objs : List Obj)
    (h : ∃ o ∈ objs, ∃ e, normalizeInsertDoc name m o = .error e) :
    ∃ e, normalizeBatch name m objs = .error e := by
  induction objs with
  | nil => simp at h
  | cons hd tl ih =>
    obtain ⟨o, ho, e, he⟩ := h
    rcases List.mem_cons.mp ho with rfl | htl
    · exact ⟨e, by simp [normalizeBatch, he]⟩
    · cases hhd : normalizeInsertDoc name m hd with
      | error e' => exact ⟨e', by simp [normalizeBatch, hhd]⟩
      | ok d =>
        obtain ⟨e2, he2⟩ := ih ⟨o, htl, e, he⟩
        exact ⟨e2, by simp [normalizeBatch, hhd, he2]⟩

/-- C1: if any document of a batch fails insert normalization, the
intercepted insert fails and the store's original insert primitive is
never reached — in this model the only way documents are appended to the
collection — so the collection keeps exactly its previous contents, the
already-validated earlier documents of the batch included. -/
theorem C1_insert_batch_atomic (name : String) (m : ModelEntry) (coll : List Obj)
    (objs : List Obj)
    (h : ∃ o ∈ objs, ∃ e, normalizeInsertDoc name m o = .error e) :
    (modelInsert name m coll (.many objs)).1 = coll ∧
    ∃ e, (modelInsert name m coll (.many objs)).2 = .error e := by
  obtain ⟨e, he⟩ := normalizeBatch_error_of_mem name m objs h
  exact ⟨by simp [modelInsert, toBatch, he], ⟨e, by simp [modelInsert, toBatch, he]⟩⟩

/-- The compiled entry of the witness model `people`. -/
def entW : ModelEntry := compiledEntry "people" defnW false

/-- The witness batch of the spec's atomicity example: the first document
validates, the second violates the not-null constraint. -/
def batchW : List Obj := [[("age", JSVal.str "10")], [("age", JSVal.null)]]

theorem C1_insert_batch_atomic_witness :
    (∃ o ∈ batchW, ∃ e, normalizeInsertDoc "people" entW o = .error e) ∧
    (modelInsert "people" entW [[("age", JSVal.num (.fin 30))]] (.many batchW)).1
      = [[("age", JSVal.num (.fin 30))]] ∧
    ∃ e, (modelInsert "people" entW [[("age", JSVal.num (.fin 30))]] (.many batchW)).2
      = .error e := by
  have h : ∃ o ∈ batchW, ∃ e, normalizeInsertDoc "people" entW o = .error e :=
    ⟨[("age", JSVal.null)], by decide, JErr.notNull "age" "people", by rfl⟩
  have happ := C1_insert_batch_atomic "people" entW [[("age", JSVal.num (.fin 30))]]
    batchW h
  exact ⟨h, happ.1, happ.2⟩

/-- C8: a bulk (array) update is forwarded to the store's original update
primitive exactly as given — `modelUpdate` returns the argument the
interceptor hands to `_update`, and for an array it is the unmodified
array: no coercion, defaults, extra-property dropping or not-null
validation touches any of its documents. -/
theorem C8_bulk_update_forwarded (name : String) (m : ModelEntry) (l : List Obj) :
    modelUpdate name m (.many l) = .ok (.many l) := rfl

theorem normalizeInsertDoc_ok_val (name : String) (m : ModelEntry) (obj : Obj)
    (d : Obj) (h : normalizeInsertDoc name m obj = .ok d) :
    d = normProps m (jsonRoundTripObj m.defaultObject) obj := by
  unfold normalizeInsertDoc at h
  cases hc : checkNotNull name m (normProps m (jsonRoundTripObj m.defaultObject) obj) with
  | error e => rw [hc] at h; cases h
  | ok u =>
    rw [hc] at h
    simp only [Except.ok.injEq] at h
    exact h.symm

/-- C7: inserting a document that carries a declared property and an
undeclared one: under the default strict mode the stored document lacks
the undeclared property; under `allowExtraProperties: true` it carries
its raw value unchanged.  In both modes the stored document is exactly
the normalized one appended to the collection. -/
theorem C7_extra_properties_strictness (defn : List (String × PropDecl)) (name : String)
    (coll : List Obj) (obj : Obj) (e : String) (v : JSVal) (kd : String) (vd : JSVal)
    (hnd : (obj.map Prod.fst).Nodup)
    (he : alLookup (compileScheme defn) e = none)
    (hev : (e, v) ∈ obj)
    (hkd : (kd, vd) ∈ obj)
    (hdecl : (alLookup (compileScheme defn) kd).isSome = true) :
    (∀ d, normalizeInsertDoc name (compiledEntry name defn false) obj = .ok d →
      modelInsert name (compiledEntry name defn false) coll (.one obj)
        = (coll ++ [d], .ok [d]) ∧ alLookup d e = none) ∧
    (∀ d, normalizeInsertDoc name (compiledEntry name defn true) obj = .ok d →
      modelInsert name (compiledEntry name defn true) coll (.one obj)
        = (coll ++ [d], .ok [d]) ∧ alLookup d e = some v) := by
  have hnotin : e ∉ (compileDefaults defn).map Prod.fst := by
    rw [compileDefaults_keys]
    rw [← compileScheme_keys]
    exact (alLookup_none_iff _ _).mp he
  constructor
  · intro d hd
    refine ⟨by simp [modelInsert, toBatch, normalizeBatch, hd], ?_⟩
    rw [normalizeInsertDoc_ok_val name _ obj d hd]
    rw [normProps_get]
    rw [writeVal_none_strict _ obj e rfl he]
    show alLookup (jsonRoundTripObj (compileDefaults defn)) e = none
    exact jsonRoundTripObj_lookup_none _ _ hnotin
  · intro d hd
    refine ⟨by simp [modelInsert, toBatch, normalizeBatch, hd], ?_⟩
    rw [normalizeInsertDoc_ok_val name _ obj d hd]
    rw [normProps_get]
    rw [writeVal_nonstrict_unique _ obj e v rfl he hnd hev]
    rfl

/-- The witness model declaration for the strictness example: one
declared property with a bare coercion function. -/
def defnC7 : List (String × PropDecl) := [("age", PropDecl.func TYPES.ANY)]

/-- The witness document of the spec's strictness example: one declared
and one undeclared property. -/
def objC7 : Obj := [("age", JSVal.num (.fin 1)), ("extra", JSVal.str "x")]

theorem C7_extra_properties_strictness_witness :
    modelInsert "people" (compiledEntry "people" defnC7 false) [] (.one objC7)
      = ([[("age", JSVal.num (.fin 1))]], .ok [[("age", JSVal.num (.fin 1))]]) ∧
    alLookup ([("age", JSVal.num (.fin 1))] : Obj) "extra" = none ∧
    modelInsert "people" (compiledEntry "people" defnC7 true) [] (.one objC7)
      = ([[("age", JSVal.num (.fin 1)), ("extra", JSVal.str "x")]],
         .ok [[("age", JSVal.num (.fin 1)), ("extra", JSVal.str "x")]]) ∧
    alLookup ([("age", JSVal.num (.fin 1)), ("extra", JSVal.str "x")] : Obj) "extra"
      = some (JSVal.str "x") := by
  have h := C7_extra_properties_strictness defnC7 "people" [] objC7 "extra"
    (JSVal.str "x") "age" (JSVal.num (.fin 1)) (by decide) rfl (by decide) (by decide) rfl
  have h1 := h.1 [("age", JSVal.num (.fin 1))] (by rfl)
  have h2 := h.2 [("age", JSVal.num (.fin 1)), ("extra", JSVal.str "x")] (by rfl)
  exact ⟨h1.1, h1.2, h2.1, h2.2⟩

/-! ## Insert versus update normalization (C2) -/

/-- Pointwise (extensional) equality of two objects under JS property
reads: every key reads the same value (an absent key reads undefined). -/
def objExtEq (a b : Obj) : Prop := ∀ k, objGetD a k = objGetD b k

/-- Lifting of `objExtEq` to fallible normalization results: both fail
with the same error, or both succeed with extensionally equal documents. -/
def exceptObjExtEq : Except JErr Obj → Except JErr Obj → Prop
  | .ok a, .ok b => objExtEq a b
  | .error a, .error b => a = b
  | _, _ => False

/-- The model declaration of the C2 counterexample: one property `p` with
default value 5 and no other constraints. -/
def defnC2 : List (String × PropDecl) :=
  [("p", PropDecl.config none none (some (JSVal.num (.fin 5))) false)]

/-- C2 counterexample: on the empty raw document, insert normalization
applies the default template and produces `p = 5`, while update
normalization starts from the empty object and produces a document
without `p` — so the update-normalized document (before `meta` / `$loki`
are re-attached) does not equal the insert-normalized document: no
defaults are applied on the update path. -/
theorem C2_counterexample :
    normalizeInsertDoc "M" (compiledEntry "M" defnC2 false) []
      = .ok [("p", JSVal.num (.fin 5))] ∧
    normalizeUpdateDoc "M" (compiledEntry "M" defnC2 false) [] = .ok [] ∧
    objGetD ([("p", JSVal.num (.fin 5))] : Obj) "p" ≠ objGetD ([] : Obj) "p" := by
  refine ⟨rfl, rfl, by decide⟩

/-- Insert and update normalization agree — same error, or extensionally
equal results — whenever the model's scheme and template share their keys
and the raw document supplies every declared property, so that no default
is consulted. -/
theorem normalize_agree (name : String) (m : ModelEntry) (obj : Obj)
    (hkeys : m.scheme.map Prod.fst = m.defaultObject.map Prod.fst)
    (hall : ∀ k, k ∈ m.defaultObject.map Prod.fst → k ∈ obj.map Prod.fst) :
    exceptObjExtEq (normalizeInsertDoc name m obj) (normalizeUpdateDoc name m obj) := by
  have hpt : ∀ k, objGetD (normProps m (jsonRoundTripObj m.defaultObject) obj) k
      = objGetD (normProps m [] obj) k := by
    intro k
    unfold objGetD
    rw [normProps_get, normProps_get]
    cases hw : writeVal m obj k with
    | some w => rfl
    | none =>
      show ((alLookup (jsonRoundTripObj m.defaultObject) k).getD .undefined)
        = ((alLookup ([] : Obj) k).getD .undefined)
      have hnotin : k ∉ m.defaultObject.map Prod.fst := by
        intro hk
        have hks : (alLookup m.scheme k).isSome = true := by
          apply alLookup_isSome_of_mem
          rw [hkeys]
          exact hk
        have hko : k ∈ obj.map Prod.fst := hall k hk
        have hsome := writeVal_some_of_scheme m obj k hks hko
        rw [hw] at hsome
        cases hsome
      rw [jsonRoundTripObj_lookup_none _ _ hnotin]
      rfl
  have hchk : checkNotNull name m (normProps m (jsonRoundTripObj m.defaultObject) obj)
      = checkNotNull name m (normProps m [] obj) :=
    checkNotNullFrom_ext name m _ _ hpt m.defaultObject
  unfold normalizeInsertDoc normalizeUpdateDoc
  rw [← hchk]
  cases hres : checkNotNull name m (normProps m (jsonRoundTripObj m.defaultObject) obj) with
  | error e => exact rfl
  | ok u => exact hpt

/-- C2 corrected: the document produced by the intercepted update before
`meta` and `$loki` are re-attached agrees with the intercepted insert's
normalization of the same raw input — same coercions, same extra-property
policy, same not-null validation — except that the update path applies no
defaults (it starts from an empty document rather than a deep copy of the
default template).  Consequently the two agree (same error, or
extensionally equal documents) whenever the raw document supplies every
declared property. -/
theorem C2_update_matches_insert_when_no_default_needed
    (defn : List (String × PropDecl)) (ns : Bool) (name : String) (obj : Obj)
    (hall : ∀ k, k ∈ defn.map Prod.fst → k ∈ obj.map Prod.fst) :
    exceptObjExtEq (normalizeInsertDoc name (compiledEntry name defn ns) obj)
      (normalizeUpdateDoc name (compiledEntry name defn ns) obj) := by
  apply normalize_agree
  · show (compileScheme defn).map Prod.fst = (compileDefaults defn).map Prod.fst
    rw [compileScheme_keys, compileDefaults_keys]
  · intro k hk
    apply hall
    show k ∈ defn.map Prod.fst
    rw [← compileDefaults_keys]
    exact hk

theorem C2_update_matches_insert_when_no_default_needed_witness :
    exceptObjExtEq
      (normalizeInsertDoc "M" (compiledEntry "M" defnC2 false)
        [("p", JSVal.num (.fin 7))])
      (normalizeUpdateDoc "M" (compiledEntry "M" defnC2 false)
        [("p", JSVal.num (.fin 7))]) :=
  C2_update_matches_insert_when_no_default_needed defnC2 false "M"
    [("p", JSVal.num (.fin 7))] (fun k hk => hk)

end Jotnar
